import Mathlib

/-!
Verification development for the huidu-led protocol client.

Bytes are modelled as `Nat` values (reduced modulo 256 where the code reads
them), byte buffers as `List Nat`, and wire frames as complete byte lists as
returned by `readPacket`.  Definitions marked as translated come from the Go
source; definitions marked as reference descriptions restate the spec's words
for comparison.
-/

/-- Protocol constant from the source: maximum data carried by one packet. -/
def MaxContentLength : Nat := 8000

/-- Protocol constant from the source: generic packet header length. -/
def tcpHeaderLength : Nat := 4

/-- Protocol constant from the source: SDK command packet header length. -/
def sdkCmdHeaderLength : Nat := 12

/-- Command type code for SDK command requests (CmdSdkCmdAsk, 0x2003). -/
def CmdSdkCmdAsk : Nat := 0x2003

/-- Command type code for SDK command answers (CmdSdkCmdAnswer, 0x2004). -/
def CmdSdkCmdAnswer : Nat := 0x2004

/-- Command type code for error answers (CmdErrorAnswer, 0x2000). -/
def CmdErrorAnswer : Nat := 0x2000

/-- Command type code for heartbeat answers (CmdHeartbeatAnswer, 0x0060). -/
def CmdHeartbeatAnswer : Nat := 0x0060

/-- Command type code for heartbeat requests (CmdHeartbeatAsk, 0x005f). -/
def CmdHeartbeatAsk : Nat := 0x005f

/-- Command type code for file content packets (CmdFileContentAsk, 0x8003). -/
def CmdFileContentAsk : Nat := 0x8003

/-- Command type code for file end answers (CmdFileEndAnswer, 0x8006). -/
def CmdFileEndAnswer : Nat := 0x8006

/-- Device result code ErrSuccess. -/
def ErrSuccess : Nat := 0

/-- Device result code ErrWriteFinish. -/
def ErrWriteFinish : Nat := 1

/-- Little-endian 2-byte encoding, as binary.LittleEndian.PutUint16 produces
for the Go uint16 truncation of `n`. -/
def le16 (n : Nat) : List Nat := [n % 256, n / 256 % 256]

/-- Little-endian 4-byte encoding, as binary.LittleEndian.PutUint32 produces
for the Go uint32 truncation of `n`. -/
def le32 (n : Nat) : List Nat :=
  [n % 256, n / 256 % 256, n / 65536 % 256, n / 16777216 % 256]

/-- Byte `i` of a buffer (0 when out of range), reduced mod 256 since the Go
side stores bytes. -/
def byteAt (l : List Nat) (i : Nat) : Nat := l.getD i 0 % 256

/-- Little-endian 2-byte read, as binary.LittleEndian.Uint16. -/
def readLE16 (l : List Nat) : Nat := byteAt l 0 + 256 * byteAt l 1

/-- Little-endian 4-byte read, as binary.LittleEndian.Uint32. -/
def readLE32 (l : List Nat) : Nat :=
  byteAt l 0 + 256 * byteAt l 1 + 65536 * byteAt l 2 + 16777216 * byteAt l 3

/-- Translated from buildSdkCmdPackets' loop: the remaining bytes
`rest = xmlData[offset:]` are split into chunks of at most MaxContentLength,
each wrapped in the 12-byte header
[2B pktLen][2B CmdSdkCmdAsk][4B totalLen][4B offset].  The Go chunk size
`min (totalLen - offset) MaxContentLength` equals `min rest.length
MaxContentLength` because `rest.length = totalLen - offset`. -/
def buildSdkCmdPacketsAux (totalLen offset : Nat) (rest : List Nat) :
    List (List Nat) :=
  if h : rest = [] then []
  else
    let chunkSize := min rest.length MaxContentLength
    (le16 (sdkCmdHeaderLength + chunkSize) ++ le16 CmdSdkCmdAsk ++
        le32 totalLen ++ le32 offset ++ rest.take chunkSize)
      :: buildSdkCmdPacketsAux totalLen (offset + chunkSize)
          (rest.drop chunkSize)
termination_by rest.length
decreasing_by
  simp only [List.length_drop]
  have h0 : 0 < rest.length := List.length_pos.mpr h
  have h1 : 0 < min rest.length MaxContentLength := by
    simp [MaxContentLength]
    omega
  omega

/-- Translated from buildSdkCmdPackets: empty input yields no packets,
otherwise the XML bytes are fragmented by the loop above. -/
def buildSdkCmdPackets (xmlData : List Nat) : List (List Nat) :=
  if xmlData.length = 0 then []
  else buildSdkCmdPacketsAux xmlData.length 0 xmlData

/-- Reference description (spec words): the chunk decomposition of a byte
sequence into consecutive pieces of at most MaxContentLength bytes. -/
def chunksOf (bs : List Nat) : List (List Nat) :=
  if h : bs = [] then []
  else bs.take MaxContentLength :: chunksOf (bs.drop MaxContentLength)
termination_by bs.length
decreasing_by
  simp only [List.length_drop]
  have h0 : 0 < bs.length := List.length_pos.mpr h
  simp [MaxContentLength]
  omega

/-- Reference description (spec words): one fragment frame consisting of a
12-byte header — 2B total frame length, 2B command tag, 4B total XML length,
4B chunk offset — followed by the chunk bytes. -/
def sdkFrame (cmd total offset : Nat) (chunk : List Nat) : List Nat :=
  le16 (sdkCmdHeaderLength + chunk.length) ++ le16 cmd ++ le32 total ++
    le32 offset ++ chunk

/-- Reference description (spec words): the fragment frames for a chunk list,
with offsets accumulating chunk lengths so chunks are contiguous. -/
def framesOf (cmd total offset : Nat) : List (List Nat) → List (List Nat)
  | [] => []
  | c :: cs => sdkFrame cmd total offset c :: framesOf cmd total (offset + c.length) cs

section BasicLemmas

theorem le16_length (n : Nat) : (le16 n).length = 2 := rfl

theorem le32_length (n : Nat) : (le32 n).length = 4 := rfl

theorem readLE16_le16 (c : Nat) (r : List Nat) :
    readLE16 (le16 c ++ r) = c % 65536 := by
  simp [readLE16, byteAt, le16, List.getD]
  omega

theorem readLE32_le32 (n : Nat) (r : List Nat) :
    readLE32 (le32 n ++ r) = n % 4294967296 := by
  simp [readLE32, byteAt, le32, List.getD]
  omega

theorem sdkFrame_length (cmd total offset : Nat) (c : List Nat) :
    (sdkFrame cmd total offset c).length = sdkCmdHeaderLength + c.length := by
  simp [sdkFrame, le16, le32, sdkCmdHeaderLength]
  omega

theorem sdkFrame_drop2 (cmd total offset : Nat) (c : List Nat) :
    (sdkFrame cmd total offset c).drop 2 = le16 cmd ++ (le32 total ++ (le32 offset ++ c)) := by
  simp [sdkFrame, le16]

theorem sdkFrame_drop4 (cmd total offset : Nat) (c : List Nat) :
    (sdkFrame cmd total offset c).drop 4 = le32 total ++ (le32 offset ++ c) := by
  simp [sdkFrame, le16]

theorem sdkFrame_drop8 (cmd total offset : Nat) (c : List Nat) :
    (sdkFrame cmd total offset c).drop 8 = le32 offset ++ c := by
  simp [sdkFrame, le16, le32]

theorem sdkFrame_drop12 (cmd total offset : Nat) (c : List Nat) :
    (sdkFrame cmd total offset c).drop 12 = c := by
  simp [sdkFrame, le16, le32]

end BasicLemmas

/-- Tests whether a byte is one of the ASCII whitespace bytes that
strings.TrimSpace removes (theorems over raw payloads restrict themselves to
ASCII content, where Go's unicode trimming coincides with this byte test). -/
def isSpaceByte (b : Nat) : Bool :=
  b = 9 || b = 10 || b = 11 || b = 12 || b = 13 || b = 32

/-- Translated from cleanXML: strip a leading UTF-8 byte-order-mark
(0xEF 0xBB 0xBF), then trim surrounding whitespace (strings.TrimSpace,
modelled at the byte level for ASCII content). -/
def cleanXML (data : List Nat) : List Nat :=
  let noBom := if data.take 3 = [0xEF, 0xBB, 0xBF] then data.drop 3 else data
  ((noBom.dropWhile isSpaceByte).reverse.dropWhile isSpaceByte).reverse

/-- Go's builtin copy into `dst[offset:]` from `src`: writes
`min src.length (dst.length - offset)` bytes at `offset`, truncating
silently, and leaves the rest of `dst` unchanged.  Callers must ensure
`offset ≤ dst.length` (otherwise Go panics; the assembler models that case
separately). -/
def goCopy (dst : List Nat) (offset : Nat) (src : List Nat) : List Nat :=
  dst.take offset ++ src.take (min src.length (dst.length - offset)) ++
    dst.drop (offset + min src.length (dst.length - offset))

/-- Outcome of the readSdkResponse reassembly loop, up to the point where the
cleaned XML bytes are handed to parseSdkResponse.  `incomplete` models the
loop still blocking on readPacket when the frame source is exhausted;
`panicked` models the Go runtime panic on slicing the buffer past its end. -/
inductive AsmResult where
  | ok (xml : List Nat)
  | errHeader
  | errDevice (code : Nat)
  | errDeviceUnknown
  | errUnexpected (cmd : Nat)
  | panicked
  | incomplete
deriving Repr, DecidableEq

/-- Translated from readSdkResponse's read loop (device.go).  The state is
`none` before the first fragment and `some (xmlBuf, totalExpected)` after;
each frame is dispatched on its command type; a fragment parses the 12-byte
header, allocates the buffer on the first fragment (sized by that fragment's
declared total), copies the chunk at the declared offset, and finishes when
`offset + chunkLen ≥ totalExpected` (uint32 arithmetic). -/
def readSdkResponseAux : Option (List Nat × Nat) → List (List Nat) → AsmResult
  | _, [] => .incomplete
  | st, data :: rest =>
    let cmd := readLE16 (data.drop 2)
    if cmd = CmdSdkCmdAnswer then
      if data.length < sdkCmdHeaderLength then .errHeader
      else
        let totalLen := readLE32 (data.drop 4)
        let offset := readLE32 (data.drop 8)
        let buf := match st with
          | none => List.replicate totalLen 0
          | some (b, _) => b
        let totalExpected := match st with
          | none => totalLen
          | some (_, t) => t
        if buf.length < offset then .panicked
        else
          let chunk := data.drop sdkCmdHeaderLength
          let buf' := goCopy buf offset chunk
          if totalExpected ≤ (offset + chunk.length) % 4294967296 then
            .ok (cleanXML buf')
          else readSdkResponseAux (some (buf', totalExpected)) rest
    else if cmd = CmdErrorAnswer then
      if data.length < 6 then .errDeviceUnknown
      else .errDevice (readLE16 (data.drop 4))
    else if cmd = CmdHeartbeatAnswer then readSdkResponseAux st rest
    else .errUnexpected cmd

/-- Translated from readSdkResponse: the reassembly loop started with no
buffer allocated. -/
def readSdkResponseFrames (frames : List (List Nat)) : AsmResult :=
  readSdkResponseAux none frames

/-- Rewrites a fragment frame's command tag from the ask tag to the answer
tag, as a loopback peer answering a request does; everything else in the
frame is kept byte for byte. -/
def retagAnswer (f : List Nat) : List Nat :=
  f.take 2 ++ le16 CmdSdkCmdAnswer ++ f.drop 4

section ChunkLemmas

theorem length_strong_induction {α : Type} {P : List α → Prop}
    (step : ∀ l : List α, (∀ m : List α, m.length < l.length → P m) → P l) :
    ∀ l : List α, P l := by
  intro l
  generalize hn : l.length = n
  induction n using Nat.strong_induction_on generalizing l with
  | _ n ih =>
    subst hn
    exact step l (fun m hm => ih m.length hm m rfl)

theorem take_min_length_left {α : Type} (l : List α) (n : Nat) :
    l.take (min l.length n) = l.take n := by
  rcases Nat.le_total l.length n with h | h
  · rw [Nat.min_eq_left h, List.take_length, List.take_of_length_le h]
  · rw [Nat.min_eq_right h]

theorem drop_min_length_left {α : Type} (l : List α) (n : Nat) :
    l.drop (min l.length n) = l.drop n := by
  rcases Nat.le_total l.length n with h | h
  · rw [Nat.min_eq_left h, List.drop_length, List.drop_eq_nil_of_le h]
  · rw [Nat.min_eq_right h]

theorem chunksOf_join (bs : List Nat) : (chunksOf bs).flatten = bs := by
  induction bs using length_strong_induction with
  | step l ih =>
    rw [chunksOf]
    by_cases h : l = []
    · simp [h]
    · have hlt : (l.drop MaxContentLength).length < l.length := by
        have h0 : 0 < l.length := List.length_pos.mpr h
        simp only [List.length_drop, MaxContentLength]
        omega
      simp only [dif_neg h, List.flatten]
      rw [ih _ hlt, List.take_append_drop]

theorem chunksOf_mem (bs : List Nat) :
    ∀ c ∈ chunksOf bs, 0 < c.length ∧ c.length ≤ MaxContentLength := by
  induction bs using length_strong_induction with
  | step l ih =>
    rw [chunksOf]
    by_cases h : l = []
    · simp [h]
    · have hlt : (l.drop MaxContentLength).length < l.length := by
        have h0 : 0 < l.length := List.length_pos.mpr h
        simp only [List.length_drop, MaxContentLength]
        omega
      simp only [dif_neg h, List.mem_cons]
      intro c hc
      rcases hc with hc | hc
      · subst hc
        have h0 : 0 < l.length := List.length_pos.mpr h
        simp only [List.length_take, MaxContentLength]
        omega
      · exact ih _ hlt c hc

theorem chunksOf_ne_nil (bs : List Nat) (h : bs ≠ []) : chunksOf bs ≠ [] := by
  rw [chunksOf]
  simp [h]

theorem buildSdkCmdPacketsAux_eq (t : Nat) (rest : List Nat) :
    ∀ o : Nat,
      buildSdkCmdPacketsAux t o rest = framesOf CmdSdkCmdAsk t o (chunksOf rest) := by
  induction rest using length_strong_induction with
  | step l ih =>
    intro o
    rw [buildSdkCmdPacketsAux, chunksOf]
    by_cases h : l = []
    · simp [h, framesOf]
    · have hlt : (l.drop MaxContentLength).length < l.length := by
        have h0 : 0 < l.length := List.length_pos.mpr h
        simp only [List.length_drop, MaxContentLength]
        omega
      simp only [dif_neg h, framesOf, sdkFrame]
      rw [take_min_length_left, drop_min_length_left, ih _ hlt]
      have hlen : (l.take MaxContentLength).length = min l.length MaxContentLength := by
        simp [List.length_take, Nat.min_comm]
      rw [hlen]

end ChunkLemmas

/-- Claim C2: buildSdkCmdPackets yields no frames on empty input; on any
input it splits the bytes into nonempty chunks of at most MaxContentLength
bytes whose concatenation is exactly the input (contiguous cover of [0, N)
with no overlap and no gap, since each frame's offset is the sum of the
lengths of the chunks before it), and each frame is the chunk prefixed by
the 12-byte header carrying the frame length, the fragmented-command tag,
the constant total length N and the chunk's starting offset. -/
theorem buildSdkCmdPackets_fragmentation :
    buildSdkCmdPackets ([] : List Nat) = [] ∧
    ∀ bs : List Nat, ∃ chunks : List (List Nat),
      chunks.flatten = bs ∧
      (∀ c ∈ chunks, 0 < c.length ∧ c.length ≤ MaxContentLength) ∧
      (bs ≠ [] → chunks ≠ []) ∧
      buildSdkCmdPackets bs = framesOf CmdSdkCmdAsk bs.length 0 chunks := by
  constructor
  · rfl
  · intro bs
    refine ⟨chunksOf bs, chunksOf_join bs, chunksOf_mem bs, chunksOf_ne_nil bs, ?_⟩
    by_cases h : bs = []
    · subst h
      simp [buildSdkCmdPackets, chunksOf, framesOf]
    · have hne : bs.length ≠ 0 := fun hc => h (List.length_eq_zero.mp hc)
      simp only [buildSdkCmdPackets, if_neg hne]
      exact buildSdkCmdPacketsAux_eq bs.length bs 0

section AssemblerLemmas

theorem sdkFrame_take2 (cmd total offset : Nat) (c : List Nat) :
    (sdkFrame cmd total offset c).take 2 = le16 (sdkCmdHeaderLength + c.length) := by
  simp [sdkFrame, le16]

theorem retagAnswer_sdkFrame (cmd total offset : Nat) (c : List Nat) :
    retagAnswer (sdkFrame cmd total offset c) = sdkFrame CmdSdkCmdAnswer total offset c := by
  rw [retagAnswer, sdkFrame_take2, sdkFrame_drop4]
  rfl

theorem map_retagAnswer_framesOf (total : Nat) (chunks : List (List Nat)) :
    ∀ offset : Nat,
      (framesOf CmdSdkCmdAsk total offset chunks).map retagAnswer =
        framesOf CmdSdkCmdAnswer total offset chunks := by
  induction chunks with
  | nil => intro offset; rfl
  | cons c cs ih =>
    intro offset
    simp only [framesOf, List.map_cons, retagAnswer_sdkFrame, ih]

theorem goCopy_length (dst : List Nat) (o : Nat) (src : List Nat)
    (h : o ≤ dst.length) : (goCopy dst o src).length = dst.length := by
  simp only [goCopy, List.length_append, List.length_take, List.length_drop]
  omega

theorem goCopy_exact (dst : List Nat) (o : Nat) (src : List Nat)
    (h : o + src.length ≤ dst.length) :
    goCopy dst o src = dst.take o ++ src ++ dst.drop (o + src.length) := by
  have hm : min src.length (dst.length - o) = src.length := by omega
  rw [goCopy, hm, List.take_length]

theorem readSdkResponseAux_cons_frame (st : Option (List Nat × Nat))
    (t o : Nat) (c : List Nat) (rest : List (List Nat))
    (ht : t < 4294967296) (ho : o < 4294967296) :
    readSdkResponseAux st (sdkFrame CmdSdkCmdAnswer t o c :: rest) =
      (let buf := match st with
        | none => List.replicate t 0
        | some (b, _) => b
       let tot := match st with
        | none => t
        | some (_, tt) => tt
       if buf.length < o then AsmResult.panicked
       else if tot ≤ (o + c.length) % 4294967296 then
         AsmResult.ok (cleanXML (goCopy buf o c))
       else readSdkResponseAux (some (goCopy buf o c, tot)) rest) := by
  simp only [readSdkResponseAux, sdkCmdHeaderLength, sdkFrame_drop2,
    sdkFrame_drop4, sdkFrame_drop8, sdkFrame_drop12, readLE16_le16,
    readLE32_le32, sdkFrame_length, Nat.mod_eq_of_lt ht, Nat.mod_eq_of_lt ho]
  norm_num [CmdSdkCmdAnswer]

theorem readSdkResponseAux_cons_some (b : List Nat) (tt t o : Nat)
    (c : List Nat) (rest : List (List Nat))
    (ht : t < 4294967296) (ho : o < 4294967296) :
    readSdkResponseAux (some (b, tt)) (sdkFrame CmdSdkCmdAnswer t o c :: rest) =
      if b.length < o then AsmResult.panicked
      else if tt ≤ (o + c.length) % 4294967296 then
        AsmResult.ok (cleanXML (goCopy b o c))
      else readSdkResponseAux (some (goCopy b o c, tt)) rest := by
  rw [readSdkResponseAux_cons_frame (some (b, tt)) t o c rest ht ho]

theorem readSdkResponseAux_cons_first (t o : Nat)
    (c : List Nat) (rest : List (List Nat))
    (ht : t < 4294967296) (ho : o < 4294967296) :
    readSdkResponseAux none (sdkFrame CmdSdkCmdAnswer t o c :: rest) =
      if (List.replicate t (0 : Nat)).length < o then AsmResult.panicked
      else if t ≤ (o + c.length) % 4294967296 then
        AsmResult.ok (cleanXML (goCopy (List.replicate t 0) o c))
      else readSdkResponseAux (some (goCopy (List.replicate t 0) o c, t)) rest := by
  rw [readSdkResponseAux_cons_frame none t o c rest ht ho]

theorem take_pre_chunk (p c d : List Nat) :
    (p ++ c ++ d).take (p.length + c.length) = p ++ c := by
  rw [List.take_append_eq_append_take, List.take_of_length_le (by simp),
    List.length_append]
  simp

theorem flatten_pos_length (c : List Nat) (cs : List (List Nat))
    (h : ∀ x ∈ c :: cs, 0 < x.length) : 0 < (c :: cs).flatten.length := by
  have := h c (List.mem_cons_self c cs)
  simp only [List.flatten_cons, List.length_append]
  omega

theorem assemble_framesOf (chunks : List (List Nat)) :
    ∀ (b : List Nat) (t o : Nat),
      b.length = t → t < 4294967296 → chunks ≠ [] →
      (∀ c ∈ chunks, 0 < c.length) →
      o + chunks.flatten.length = t →
      readSdkResponseAux (some (b, t))
          (framesOf CmdSdkCmdAnswer t o chunks) =
        AsmResult.ok (cleanXML (b.take o ++ chunks.flatten)) := by
  induction chunks with
  | nil => intro b t o _ _ hne _ _; exact absurd rfl hne
  | cons c cs ih =>
    intro b t o hb ht _ hpos hcov
    subst hb
    have hflat : (c :: cs).flatten.length = c.length + cs.flatten.length := by
      simp
    have hoc : o + c.length ≤ b.length := by omega
    have ho : o < 4294967296 := by omega
    rw [framesOf, readSdkResponseAux_cons_some b b.length b.length o c _ ht ho]
    rw [if_neg (by omega : ¬ (b.length < o))]
    cases cs with
    | nil =>
      have hsum : o + c.length = b.length := by
        simp only [List.flatten_cons, List.flatten_nil, List.append_nil] at hcov
        omega
      rw [if_pos (by rw [Nat.mod_eq_of_lt (by omega)]; omega)]
      rw [goCopy_exact b o c (by omega)]
      have hdrop : b.drop (o + c.length) = [] := List.drop_eq_nil_of_le (by omega)
      simp [hdrop]
    | cons c' cs' =>
      have hc' : 0 < (c' :: cs').flatten.length :=
        flatten_pos_length c' cs' (fun x hx => hpos x (List.mem_cons_of_mem c hx))
      have hlt2 : o + c.length < b.length := by
        have h3 : (c :: c' :: cs').flatten.length =
            c.length + (c' :: cs').flatten.length := by
          rw [List.flatten_cons, List.length_append]
        omega
      have hmod : (o + c.length) % 4294967296 = o + c.length :=
        Nat.mod_eq_of_lt (by omega)
      rw [if_neg (show ¬ (b.length ≤ (o + c.length) % 4294967296) by
        rw [hmod]; omega)]
      have hgl : (goCopy b o c).length = b.length :=
        goCopy_length b o c (by omega)
      have hrec := ih (goCopy b o c) b.length (o + c.length) hgl ht
        (by simp)
        (fun x hx => hpos x (List.mem_cons_of_mem c hx))
        (by
          have h3 : (c :: c' :: cs').flatten.length =
              c.length + (c' :: cs').flatten.length := by
            rw [List.flatten_cons, List.length_append]
          omega)
      rw [hrec]
      refine congrArg AsmResult.ok (congrArg cleanXML ?_)
      rw [goCopy_exact b o c (by omega)]
      have htake : (b.take o).length = o := by
        rw [List.length_take]; omega
      calc (b.take o ++ c ++ b.drop (o + c.length)).take (o + c.length) ++
            (c' :: cs').flatten
          = (b.take o ++ c ++ b.drop (o + c.length)).take
              ((b.take o).length + c.length) ++ (c' :: cs').flatten := by
            rw [htake]
        _ = (b.take o ++ c) ++ (c' :: cs').flatten := by
            rw [take_pre_chunk]
        _ = b.take o ++ (c :: c' :: cs').flatten := by
            simp

theorem readSdkResponseAux_none_alloc (t o : Nat) (c : List Nat)
    (rest : List (List Nat)) (ht : t < 4294967296) (ho : o < 4294967296) :
    readSdkResponseAux none (sdkFrame CmdSdkCmdAnswer t o c :: rest) =
      readSdkResponseAux (some (List.replicate t 0, t))
        (sdkFrame CmdSdkCmdAnswer t o c :: rest) := by
  rw [readSdkResponseAux_cons_frame none t o c rest ht ho,
    readSdkResponseAux_cons_frame (some (List.replicate t 0, t)) t o c rest ht ho]

theorem roundtrip_clean (bs : List Nat) (hne : bs ≠ [])
    (hlt : bs.length < 4294967296) :
    readSdkResponseFrames ((buildSdkCmdPackets bs).map retagAnswer) =
      AsmResult.ok (cleanXML bs) := by
  have hne' : bs.length ≠ 0 := fun hc => hne (List.length_eq_zero.mp hc)
  have hbuild : buildSdkCmdPackets bs =
      framesOf CmdSdkCmdAsk bs.length 0 (chunksOf bs) := by
    simp only [buildSdkCmdPackets, if_neg hne']
    exact buildSdkCmdPacketsAux_eq bs.length bs 0
  obtain ⟨c, cs, hcc⟩ : ∃ c cs, chunksOf bs = c :: cs := by
    rcases h : chunksOf bs with _ | ⟨c, cs⟩
    · exact absurd h (chunksOf_ne_nil bs hne)
    · exact ⟨c, cs, rfl⟩
  rw [readSdkResponseFrames, hbuild, map_retagAnswer_framesOf, hcc, framesOf,
    ← framesOf, ← hcc]
  have hflat : (chunksOf bs).flatten = bs := chunksOf_join bs
  rw [hcc, framesOf]
  rw [readSdkResponseAux_none_alloc bs.length 0 c _ hlt (by norm_num)]
  rw [← framesOf]
  rw [assemble_framesOf (c :: cs) (List.replicate bs.length 0) bs.length 0
    (by simp) hlt (by simp)
    (by rw [← hcc]; exact fun x hx => (chunksOf_mem bs x hx).1)
    (by rw [← hcc, hflat]; simp)]
  rw [← hcc, hflat]
  simp

theorem cleanXML_eq_self (bs : List Nat) (hne : bs ≠ [])
    (hascii : ∀ b ∈ bs, b < 128)
    (hhead : ∀ h, bs.head? = some h → isSpaceByte h = false)
    (hlast : ∀ h, bs.getLast? = some h → isSpaceByte h = false) :
    cleanXML bs = bs := by
  have hbom : ¬ (bs.take 3 = [0xEF, 0xBB, 0xBF]) := by
    intro hc
    have h239 : (239 : Nat) ∈ bs.take 3 := by rw [hc]; simp
    have := hascii 239 (List.mem_of_mem_take h239)
    omega
  obtain ⟨x, xs, rfl⟩ := List.exists_cons_of_ne_nil hne
  have hx : isSpaceByte x = false := hhead x rfl
  obtain ⟨y, ys, hrev⟩ := List.exists_cons_of_ne_nil
    (by simp : (x :: xs).reverse ≠ ([] : List Nat))
  have hy : isSpaceByte y = false := by
    apply hlast
    rw [← List.head?_reverse, hrev]
    rfl
  have h1 : List.dropWhile isSpaceByte (x :: xs) = x :: xs := by
    simp [List.dropWhile_cons, hx]
  have h2 : List.dropWhile isSpaceByte (x :: xs).reverse = (x :: xs).reverse := by
    rw [hrev]
    simp [List.dropWhile_cons, hy]
  simp only [cleanXML]
  rw [if_neg hbom, h1, h2, List.reverse_reverse]

end AssemblerLemmas

section BuildEvalHelpers

theorem chunksOf_nil : chunksOf ([] : List Nat) = [] := by
  rw [chunksOf]
  simp

theorem chunksOf_small (l : List Nat) (h : l ≠ [])
    (hl : l.length ≤ MaxContentLength) : chunksOf l = [l] := by
  rw [chunksOf, dif_neg h, List.take_of_length_le hl,
    List.drop_eq_nil_of_le hl, chunksOf_nil]

theorem buildSdkCmdPackets_eq (bs : List Nat) :
    buildSdkCmdPackets bs = framesOf CmdSdkCmdAsk bs.length 0 (chunksOf bs) := by
  by_cases h : bs = []
  · subst h
    rw [chunksOf_nil]
    rfl
  · have hne : bs.length ≠ 0 := fun hc => h (List.length_eq_zero.mp hc)
    rw [buildSdkCmdPackets, if_neg hne]
    exact buildSdkCmdPacketsAux_eq bs.length bs 0

theorem buildSdkCmdPackets_one (b : Nat) :
    buildSdkCmdPackets [b] = [sdkFrame CmdSdkCmdAsk 1 0 [b]] := by
  rw [buildSdkCmdPackets_eq, chunksOf_small [b] (by simp) (by simp [MaxContentLength])]
  rfl

end BuildEvalHelpers

/-- Claim C1: the claim states that readSdkResponse validates
`offset + chunkLen ≤ totalExpected` and rejects violating fragments with a
ProtocolError(OffsetOutOfRange).  The code performs no such check: on a
first fragment declaring total length 4 but carrying a 4-byte chunk at
offset 2 (offset + chunkLen = 6 > 4), the copy silently truncates the chunk
and the loop finishes, returning an assembled buffer — no rejection of any
kind occurs.  This theorem evaluates the translated code at that failing
input. -/
theorem fragment_overrun_not_rejected :
    readSdkResponseFrames [sdkFrame CmdSdkCmdAnswer 4 2 [65, 66, 67, 68]] =
      AsmResult.ok [0, 0, 65, 66] := by
  decide

/-- Claim C3 (amended): for payload sizes N in the claimed set other than 0,
for ASCII payloads that the response cleanup leaves unchanged (first and
last bytes not whitespace), feeding the frames built by buildSdkCmdPackets —
with the command tag rewritten from the ask tag to the answer tag, as the
echoing peer's answers carry — into the response reassembly loop
reconstructs the original payload exactly. -/
theorem loopback_roundtrip (bs : List Nat)
    (hsize : bs.length = 1 ∨ bs.length = 8000 ∨ bs.length = 8001 ∨
      bs.length = 24000)
    (hascii : ∀ b ∈ bs, b < 128)
    (hhead : ∀ h, bs.head? = some h → isSpaceByte h = false)
    (hlast : ∀ h, bs.getLast? = some h → isSpaceByte h = false) :
    readSdkResponseFrames ((buildSdkCmdPackets bs).map retagAnswer) =
      AsmResult.ok bs := by
  have hne : bs ≠ [] := by
    intro hc
    subst hc
    simp at hsize
  have hlt : bs.length < 4294967296 := by
    rcases hsize with h | h | h | h <;> omega
  rw [roundtrip_clean bs hne hlt, cleanXML_eq_self bs hne hascii hhead hlast]

/-- Witness for C3's amended theorem at the one-byte payload [65]. -/
theorem loopback_roundtrip_witness :
    readSdkResponseFrames ((buildSdkCmdPackets [65]).map retagAnswer) =
      AsmResult.ok [65] :=
  loopback_roundtrip [65] (by norm_num)
    (by intro b hb; simp at hb; omega)
    (by intro h hh; simp at hh; subst hh; rfl)
    (by intro h hh; simp at hh; subst hh; rfl)

/-- Counterexample for C3 as stated: (i) feeding the frames exactly as
buildSdkCmdPackets produces them (command tag 0x2003) makes the assembler
fail with an unexpected-command error, for any payload, here [65]; (ii) at
N = 0 no frames are produced, so the assembler never completes (the real
loop blocks forever); (iii) for the one-byte whitespace payload [32] the
cleanup trims the reassembled text, so the payload is not reconstructed. -/
theorem loopback_roundtrip_counterexample :
    readSdkResponseFrames (buildSdkCmdPackets [65]) ≠ AsmResult.ok [65] ∧
    readSdkResponseFrames ((buildSdkCmdPackets []).map retagAnswer) ≠
      AsmResult.ok [] ∧
    readSdkResponseFrames ((buildSdkCmdPackets [32]).map retagAnswer) ≠
      AsmResult.ok [32] := by
  refine ⟨?_, by decide, ?_⟩
  · rw [buildSdkCmdPackets_one 65]
    decide
  · rw [buildSdkCmdPackets_one 32]
    decide

/-- Claim C4 (amended): the reassembly buffer is allocated once, on the
first fragment, sized by that fragment's declared total length (first
conjunct: processing with no buffer equals processing with a freshly
allocated zero buffer of the declared total); each subsequent fragment is
copied into the buffer at its declared offset, and the assembled (cleaned)
result is returned exactly when that fragment's declared offset plus its
chunk length reaches the expected total — the code keeps no running count
of received bytes (second conjunct). -/
theorem reassembly_buffer_step (b : List Nat) (tt t o : Nat) (c : List Nat)
    (rest : List (List Nat)) (ht : t < 4294967296) (ho : o < 4294967296) :
    (readSdkResponseAux none (sdkFrame CmdSdkCmdAnswer t o c :: rest) =
      readSdkResponseAux (some (List.replicate t 0, t))
        (sdkFrame CmdSdkCmdAnswer t o c :: rest)) ∧
    (o ≤ b.length →
      readSdkResponseAux (some (b, tt))
          (sdkFrame CmdSdkCmdAnswer t o c :: rest) =
        if tt ≤ (o + c.length) % 4294967296 then
          AsmResult.ok (cleanXML (goCopy b o c))
        else readSdkResponseAux (some (goCopy b o c, tt)) rest) := by
  refine ⟨readSdkResponseAux_none_alloc t o c rest ht ho, fun hob => ?_⟩
  rw [readSdkResponseAux_cons_some b tt t o c rest ht ho,
    if_neg (Nat.not_lt.mpr hob)]

/-- Witness for C4's amended theorem at a concrete two-byte buffer. -/
theorem reassembly_buffer_step_witness :
    readSdkResponseAux (some ([0, 0], 2))
        (sdkFrame CmdSdkCmdAnswer 2 1 [65] :: []) =
      if 2 ≤ (1 + [65].length) % 4294967296 then
        AsmResult.ok (cleanXML (goCopy [0, 0] 1 [65]))
      else readSdkResponseAux (some (goCopy [0, 0] 1 [65], 2)) [] :=
  (reassembly_buffer_step [0, 0] 2 2 1 [65] [] (by norm_num)
    (by norm_num)).2 (by norm_num)

/-- Counterexample for C4 as stated: a single fragment declaring total 5 at
offset 5 with an empty chunk completes the reassembly — the result is
returned although the running count of received payload bytes is 0, not 5
(second conjunct: the fragment's chunk is empty), because the code compares
offset + chunkLen against the total rather than keeping a running count. -/
theorem reassembly_completion_counterexample :
    readSdkResponseFrames [sdkFrame CmdSdkCmdAnswer 5 5 []] =
      AsmResult.ok [0, 0, 0, 0, 0] ∧
    ((sdkFrame CmdSdkCmdAnswer 5 5 []).drop sdkCmdHeaderLength).length = 0 := by
  constructor
  · decide
  · decide

/-- Translated from buildFileContentPacket: a 4-byte header
[2B length][2B CmdFileContentAsk] followed by the raw chunk bytes. -/
def buildFileContentPacket (data : List Nat) : List Nat :=
  le16 (tcpHeaderLength + data.length) ++ le16 CmdFileContentAsk ++ data

/-- Translated from UploadFileData's content loop: starting at
`offset = existBytes`, while bytes remain, the slice
`fileData[offset : min (offset + MaxContentLength) len]` is wrapped in a
content packet; recast on the remaining bytes `rest = fileData[offset:]`,
for which that slice is `rest.take MaxContentLength`. -/
def uploadContentAux (rest : List Nat) : List (List Nat) :=
  if h : rest = [] then []
  else
    buildFileContentPacket (rest.take MaxContentLength)
      :: uploadContentAux (rest.drop MaxContentLength)
termination_by rest.length
decreasing_by
  simp only [List.length_drop]
  have h0 : 0 < rest.length := List.length_pos.mpr h
  simp [MaxContentLength]
  omega

/-- Translated from UploadFileData phase 2: the content packets sent for the
file data when the start-phase answer reported `existBytes` existing bytes. -/
def uploadContentPackets (fileData : List Nat) (existBytes : Nat) :
    List (List Nat) :=
  uploadContentAux (fileData.drop existBytes)

theorem uploadContentAux_eq (rest : List Nat) :
    uploadContentAux rest = (chunksOf rest).map buildFileContentPacket := by
  induction rest using length_strong_induction with
  | step l ih =>
    rw [uploadContentAux, chunksOf]
    by_cases h : l = []
    · simp [h]
    · have hlt : (l.drop MaxContentLength).length < l.length := by
        have h0 : 0 < l.length := List.length_pos.mpr h
        simp only [List.length_drop, MaxContentLength]
        omega
      simp only [dif_neg h, List.map_cons]
      rw [ih _ hlt]

theorem buildFileContentPacket_length (c : List Nat) :
    (buildFileContentPacket c).length = tcpHeaderLength + c.length := by
  simp [buildFileContentPacket, le16, tcpHeaderLength]
  omega

/-- Claim C5: the content phase of an in-memory upload with start-answer
existing-bytes count K for content of size S (K ≤ S) sends content packets
whose payloads are, in order, nonempty chunks of at most MaxContentLength
bytes concatenating exactly to the content's byte range [K, S) and nothing
else; and the 20000-byte upload with K = 0 produces exactly three content
frames with payload sizes 8000, 8000 and 4000, in that order. -/
theorem upload_content_coverage :
    (∀ (fileData : List Nat) (existBytes : Nat),
      existBytes ≤ fileData.length →
      ∃ chunks : List (List Nat),
        chunks.flatten = fileData.drop existBytes ∧
        (∀ c ∈ chunks, 0 < c.length ∧ c.length ≤ MaxContentLength) ∧
        uploadContentPackets fileData existBytes =
          chunks.map buildFileContentPacket) ∧
    (uploadContentPackets (List.replicate 20000 7) 0).map
        (fun p => p.length - tcpHeaderLength) = [8000, 8000, 4000] := by
  constructor
  · intro fileData existBytes _
    exact ⟨chunksOf (fileData.drop existBytes),
      chunksOf_join (fileData.drop existBytes),
      chunksOf_mem (fileData.drop existBytes),
      uploadContentAux_eq (fileData.drop existBytes)⟩
  · have hrep : ∀ n : Nat, n ≠ 0 → List.replicate n (7 : Nat) ≠ [] := by
      intro n hn hc
      have hlen := congrArg List.length hc
      simp at hlen
      exact hn hlen
    have e1 : chunksOf (List.replicate 20000 (7 : Nat)) =
        List.replicate 8000 7 :: chunksOf (List.replicate 12000 7) := by
      rw [chunksOf, dif_neg (hrep 20000 (by norm_num))]
      simp only [MaxContentLength, List.take_replicate, List.drop_replicate]
      rw [Nat.min_eq_left (by norm_num)]
    have e2 : chunksOf (List.replicate 12000 (7 : Nat)) =
        List.replicate 8000 7 :: chunksOf (List.replicate 4000 7) := by
      rw [chunksOf, dif_neg (hrep 12000 (by norm_num))]
      simp only [MaxContentLength, List.take_replicate, List.drop_replicate]
      rw [Nat.min_eq_left (by norm_num)]
    have e3 : chunksOf (List.replicate 4000 (7 : Nat)) =
        [List.replicate 4000 7] :=
      chunksOf_small _ (hrep 4000 (by norm_num))
        (by rw [List.length_replicate]; norm_num [MaxContentLength])
    rw [uploadContentPackets, List.drop_zero, uploadContentAux_eq, e1, e2, e3]
    simp only [List.map_cons, List.map_nil, buildFileContentPacket_length,
      List.length_replicate, tcpHeaderLength]

/-- Translated from parseFileEndResponse: a file-end answer needs at least
6 bytes; the result code is the 2 little-endian bytes at offset 4. -/
def parseFileEndResponse (data : List Nat) : Option Nat :=
  if data.length < 6 then none
  else some (readLE16 (data.drop 4))

/-- Translated from the end phase of UploadFileData (and identically
UploadFileAs): one frame is read; its command type must be
CmdFileEndAnswer; its result code is parsed; a code that is neither
ErrSuccess nor ErrWriteFinish aborts with an end error, otherwise the
upload returns success. -/
def uploadFileEndPhase (data : List Nat) (cmdType : Nat) : Except String Unit :=
  if cmdType ≠ CmdFileEndAnswer then Except.error "beklenmeyen yanit tipi"
  else
    match parseFileEndResponse data with
    | none => Except.error "dosya bitis yaniti cozumlenemedi"
    | some code =>
      if code ≠ ErrSuccess ∧ code ≠ ErrWriteFinish then
        Except.error "dosya bitis hatasi"
      else Except.ok ()

theorem readLE16_le16_nil (c : Nat) : readLE16 (le16 c) = c % 65536 := by
  have h := readLE16_le16 c []
  simpa using h

theorem uploadFileEndPhase_some (data : List Nat) (code : Nat)
    (hp : parseFileEndResponse data = some code) :
    uploadFileEndPhase data CmdFileEndAnswer =
      if code ≠ ErrSuccess ∧ code ≠ ErrWriteFinish then
        Except.error "dosya bitis hatasi"
      else Except.ok () := by
  rw [uploadFileEndPhase, if_neg (by simp), hp]

/-- Claim C6: for any 16-bit result code carried in a file-end-answer frame,
the end phase of an upload returns success exactly when the code is the
plain-success code ErrSuccess (0) or the write-finish code ErrWriteFinish
(1); every other code yields an end-phase error. -/
theorem upload_end_phase_codes (code : Nat) (hcode : code < 65536) :
    uploadFileEndPhase (le16 6 ++ le16 CmdFileEndAnswer ++ le16 code)
        CmdFileEndAnswer = Except.ok () ↔
      (code = ErrSuccess ∨ code = ErrWriteFinish) := by
  have hp : parseFileEndResponse (le16 6 ++ le16 CmdFileEndAnswer ++ le16 code)
      = some code := by
    rw [parseFileEndResponse]
    rw [if_neg (by simp [le16])]
    have hdrop : ((le16 6 ++ le16 CmdFileEndAnswer ++ le16 code)).drop 4 =
        le16 code := by
      simp [le16]
    rw [hdrop, readLE16_le16_nil, Nat.mod_eq_of_lt hcode]
  rw [uploadFileEndPhase_some _ code hp]
  by_cases h : code = ErrSuccess ∨ code = ErrWriteFinish
  · have h2 : ¬ (code ≠ ErrSuccess ∧ code ≠ ErrWriteFinish) := by
      rcases h with h | h <;> simp [h]
    rw [if_neg h2]
    simp [h]
  · have h2 : code ≠ ErrSuccess ∧ code ≠ ErrWriteFinish :=
      ⟨fun hc => h (Or.inl hc), fun hc => h (Or.inr hc)⟩
    rw [if_pos h2]
    simp [h]

/-- Witness for C6 at the write-finish code 1 and at the failing code 7. -/
theorem upload_end_phase_codes_witness :
    (uploadFileEndPhase (le16 6 ++ le16 CmdFileEndAnswer ++ le16 1)
        CmdFileEndAnswer = Except.ok () ↔ ((1 : Nat) = ErrSuccess ∨ (1 : Nat) = ErrWriteFinish)) ∧
    (uploadFileEndPhase (le16 6 ++ le16 CmdFileEndAnswer ++ le16 7)
        CmdFileEndAnswer = Except.ok () ↔ ((7 : Nat) = ErrSuccess ∨ (7 : Nat) = ErrWriteFinish)) :=
  ⟨upload_end_phase_codes 1 (by norm_num), upload_end_phase_codes 7 (by norm_num)⟩

/-- Witness for C5's universally quantified part at a 3-byte buffer with
one existing byte. -/
theorem upload_content_coverage_witness :
    ∃ chunks : List (List Nat),
      chunks.flatten = ([1, 2, 3] : List Nat).drop 1 ∧
      (∀ c ∈ chunks, 0 < c.length ∧ c.length ≤ MaxContentLength) ∧
      uploadContentPackets [1, 2, 3] 1 = chunks.map buildFileContentPacket :=
  upload_content_coverage.1 [1, 2, 3] 1 (by norm_num)

/-- Token of the Go encoding/xml decoder, as consumed by parseSdkResponse.
The decoder itself is standard-library code outside this repository; the
parser is modelled over its token stream (a stream ending early models both
EOF and a decode error, which the code treats alike by leaving the loop). -/
inductive XmlTok where
  | startEl (name : String) (attrs : List (String × String))
  | endEl (name : String)
  | charData (s : String)
  | otherTok
deriving Repr, DecidableEq

/-- Translated from the SdkResponse struct (the RawXML debug field, a copy
of the input, is not modelled). -/
structure SdkResponse where
  GUID : String := ""
  Method : String := ""
  Result : String := ""
  InnerXML : String := ""
deriving Repr, DecidableEq, Inhabited

/-- Go attribute scan: the loop over an element's attributes assigns the
value of each attribute with the given key, so the last one wins. -/
def lastAttrUpd (cur key : String) (attrs : List (String × String)) : String :=
  attrs.foldl (fun acc kv => if kv.1 = key then kv.2 else acc) cur

/-- Tests an ASCII whitespace character, the byte-level restriction of the
unicode.IsSpace test used by strings.TrimSpace. -/
def isSpaceChar (c : Char) : Bool :=
  c.toNat = 9 || c.toNat = 10 || c.toNat = 11 || c.toNat = 12 ||
    c.toNat = 13 || c.toNat = 32

/-- Models strings.TrimSpace at the character level for ASCII content. -/
def trimAscii (s : String) : String :=
  String.mk (((s.toList.dropWhile isSpaceChar).reverse.dropWhile
    isSpaceChar).reverse)

/-- Translated from Go encoding/xml isInCharacterRange: the XML character
range check used by EscapeText. -/
def xmlCharInRange (c : Char) : Bool :=
  c.toNat = 9 || c.toNat = 10 || c.toNat = 13 ||
    (32 ≤ c.toNat && c.toNat ≤ 0xD7FF) ||
    (0xE000 ≤ c.toNat && c.toNat ≤ 0xFFFD) ||
    (0x10000 ≤ c.toNat && c.toNat ≤ 0x10FFFF)

/-- Translated from Go encoding/xml EscapeText (used by xmlEscape): the
escaped form of one character.  Every Lean Char is a valid scalar value, so
the invalid-UTF-8 branch is unreachable; characters outside the XML range
become the replacement character. -/
def escapeChar (c : Char) : String :=
  if c = Char.ofNat 34 then "&#34;"
  else if c = Char.ofNat 39 then "&#39;"
  else if c = Char.ofNat 38 then "&amp;"
  else if c = Char.ofNat 60 then "&lt;"
  else if c = Char.ofNat 62 then "&gt;"
  else if c = Char.ofNat 9 then "&#x9;"
  else if c = Char.ofNat 10 then "&#xA;"
  else if c = Char.ofNat 13 then "&#xD;"
  else if xmlCharInRange c then String.mk [c]
  else "�"

/-- Translated from xmlEscape: escape each character of the string. -/
def xmlEscape (s : String) : String :=
  String.join (s.toList.map escapeChar)

/-- Go attribute rendering used when parseSdkResponse rebuilds the inner
XML text: each attribute becomes ` key="escaped value"`. -/
def attrStr (attrs : List (String × String)) : String :=
  attrs.foldl
    (fun acc kv => acc ++ " " ++ kv.1 ++ "=\"" ++ xmlEscape kv.2 ++ "\"") ""

/-- Translated from the inner loop of parseSdkResponse: starting inside an
out element at the given depth, tokens are consumed until the matching end
tag (or the stream ends), rebuilding the inner XML text; returns the built
text and the remaining tokens. -/
def innerLoop : Nat → String → List XmlTok → String × List XmlTok
  | _, acc, [] => (acc, [])
  | depth, acc, XmlTok.startEl n attrs :: rest =>
    innerLoop (depth + 1) (acc ++ "<" ++ n ++ attrStr attrs ++ ">") rest
  | depth, acc, XmlTok.endEl n :: rest =>
    if depth = 1 then (acc, rest)
    else innerLoop (depth - 1) (acc ++ "</" ++ n ++ ">") rest
  | depth, acc, XmlTok.charData s :: rest => innerLoop depth (acc ++ s) rest
  | depth, acc, XmlTok.otherTok :: rest => innerLoop depth acc rest

/-- Reference description: the tokens remaining after skipping a subtree of
the given depth, mirroring what the inner loop consumes. -/
def skipSubtree : Nat → List XmlTok → List XmlTok
  | _, [] => []
  | depth, XmlTok.startEl _ _ :: rest => skipSubtree (depth + 1) rest
  | depth, XmlTok.endEl _ :: rest =>
    if depth = 1 then rest else skipSubtree (depth - 1) rest
  | depth, _ :: rest => skipSubtree depth rest

theorem innerLoop_snd (toks : List XmlTok) :
    ∀ (d : Nat) (acc : String), (innerLoop d acc toks).2 = skipSubtree d toks := by
  induction toks with
  | nil => intro d acc; rfl
  | cons t rest ih =>
    intro d acc
    cases t with
    | startEl n attrs => exact ih (d + 1) _
    | endEl n =>
      simp only [innerLoop, skipSubtree]
      by_cases h : d = 1
      · rw [if_pos h, if_pos h]
      · rw [if_neg h, if_neg h]
        exact ih (d - 1) _
    | charData s => exact ih d _
    | otherTok => exact ih d _

theorem skipSubtree_length (toks : List XmlTok) :
    ∀ d : Nat, (skipSubtree d toks).length ≤ toks.length := by
  induction toks with
  | nil => intro d; simp [skipSubtree]
  | cons t rest ih =>
    intro d
    cases t with
    | startEl n attrs =>
      have := ih (d + 1)
      simp only [skipSubtree, List.length_cons]
      omega
    | endEl n =>
      simp only [skipSubtree, List.length_cons]
      by_cases h : d = 1
      · rw [if_pos h]; omega
      · rw [if_neg h]
        have := ih (d - 1)
        omega
    | charData s =>
      have := ih d
      simp only [skipSubtree, List.length_cons]
      omega
    | otherTok =>
      have := ih d
      simp only [skipSubtree, List.length_cons]
      omega

theorem innerLoop_snd_length (d : Nat) (acc : String) (toks : List XmlTok) :
    (innerLoop d acc toks).2.length ≤ toks.length := by
  rw [innerLoop_snd]
  exact skipSubtree_length toks d

/-- Translated from the main token loop of parseSdkResponse: an sdk start
element records its guid attribute; an out start element records its method
and result attributes, then consumes its subtree to rebuild the trimmed
inner XML; all other tokens are skipped; the loop ends with the stream. -/
def parseSdkLoop (resp : SdkResponse) : List XmlTok → SdkResponse
  | [] => resp
  | XmlTok.startEl n attrs :: rest =>
    if n = "sdk" then
      parseSdkLoop { resp with GUID := lastAttrUpd resp.GUID "guid" attrs } rest
    else if n = "out" then
      let resp1 := { resp with
        Method := lastAttrUpd resp.Method "method" attrs,
        Result := lastAttrUpd resp.Result "result" attrs }
      let p := innerLoop 1 "" rest
      parseSdkLoop { resp1 with InnerXML := trimAscii p.1 } p.2
    else parseSdkLoop resp rest
  | _ :: rest => parseSdkLoop resp rest
termination_by toks => toks.length
decreasing_by
  · simp
  · have := innerLoop_snd_length 1 "" rest
    simp
    omega
  · simp
  · simp

/-- Translated from parseSdkResponse: run the token loop from an empty
response; fail exactly when neither a GUID nor a method name was found. -/
def parseSdkResponseToks (toks : List XmlTok) : Except String SdkResponse :=
  let resp := parseSdkLoop {} toks
  if resp.GUID = "" ∧ resp.Method = "" then
    Except.error "gecersiz SDK XML yaniti: GUID veya method bulunamadi"
  else Except.ok resp

/-- Reference description: the pair (last guid attribute of a processed sdk
element, last method attribute of a processed out element) over a token
stream, skipping out subtrees exactly as the parser does. -/
def guidMethodScan (g m : String) : List XmlTok → String × String
  | [] => (g, m)
  | XmlTok.startEl n attrs :: rest =>
    if n = "sdk" then guidMethodScan (lastAttrUpd g "guid" attrs) m rest
    else if n = "out" then
      guidMethodScan g (lastAttrUpd m "method" attrs) (skipSubtree 1 rest)
    else guidMethodScan g m rest
  | _ :: rest => guidMethodScan g m rest
termination_by toks => toks.length
decreasing_by
  · simp
  · have := skipSubtree_length rest 1
    simp
    omega
  · simp
  · simp

theorem parseSdkLoop_guid_method (toks : List XmlTok) :
    ∀ r : SdkResponse,
      (parseSdkLoop r toks).GUID = (guidMethodScan r.GUID r.Method toks).1 ∧
      (parseSdkLoop r toks).Method = (guidMethodScan r.GUID r.Method toks).2 := by
  induction toks using length_strong_induction with
  | step l ih =>
    intro r
    cases l with
    | nil => simp [parseSdkLoop, guidMethodScan]
    | cons t rest =>
      cases t with
      | startEl n attrs =>
        by_cases hs : n = "sdk"
        · subst hs
          simp only [parseSdkLoop, guidMethodScan, if_pos rfl]
          have h := ih rest (by simp)
            { r with GUID := lastAttrUpd r.GUID "guid" attrs }
          simpa using h
        · by_cases ho : n = "out"
          · subst ho
            simp only [parseSdkLoop, guidMethodScan, if_neg hs, if_pos rfl]
            have h := ih (skipSubtree 1 rest)
              (by have := skipSubtree_length rest 1; simp; omega)
              { r with
                Method := lastAttrUpd r.Method "method" attrs,
                Result := lastAttrUpd r.Result "result" attrs,
                InnerXML := trimAscii (innerLoop 1 "" rest).1 }
            rw [innerLoop_snd rest 1 ""]
            simpa using h
          · simp only [parseSdkLoop, guidMethodScan, if_neg hs, if_neg ho]
            exact ih rest (by simp) r
      | endEl n =>
        simp only [parseSdkLoop, guidMethodScan]
        exact ih rest (by simp) r
      | charData s =>
        simp only [parseSdkLoop, guidMethodScan]
        exact ih rest (by simp) r
      | otherTok =>
        simp only [parseSdkLoop, guidMethodScan]
        exact ih rest (by simp) r

/-- Claim C10: parseSdkResponse fails exactly when both the GUID recorded
from sdk elements and the method recorded from out elements are empty
(first conjunct, over every decoder token stream — including truncated
ones, since a stream that ends early models a decode error or EOF); a
truncated input carrying only an sdk guid attribute is accepted (second
conjunct); a response whose result string is not the success sentinel is
returned as data, not as an error (third conjunct). -/
theorem parseSdkResponse_error_iff :
    (∀ toks : List XmlTok,
      (∃ e, parseSdkResponseToks toks = Except.error e) ↔
        ((guidMethodScan "" "" toks).1 = "" ∧
         (guidMethodScan "" "" toks).2 = "")) ∧
    parseSdkResponseToks [XmlTok.startEl "sdk" [("guid", "x")]] =
      Except.ok { GUID := "x", Method := "", Result := "", InnerXML := "" } ∧
    parseSdkResponseToks
        [XmlTok.startEl "sdk" [("guid", "g")],
         XmlTok.startEl "out" [("method", "GetDeviceInfo"),
           ("result", "kDeviceOccupied")],
         XmlTok.endEl "out", XmlTok.endEl "sdk"] =
      Except.ok { GUID := "g", Method := "GetDeviceInfo",
                  Result := "kDeviceOccupied", InnerXML := "" } := by
  refine ⟨?_, ?_, ?_⟩
  · intro toks
    have hs := parseSdkLoop_guid_method toks {}
    have hs1 : (parseSdkLoop {} toks).GUID = (guidMethodScan "" "" toks).1 := by
      simpa using hs.1
    have hs2 : (parseSdkLoop {} toks).Method = (guidMethodScan "" "" toks).2 := by
      simpa using hs.2
    by_cases hc : (parseSdkLoop {} toks).GUID = "" ∧
        (parseSdkLoop {} toks).Method = ""
    · constructor
      · intro _
        exact ⟨hs1.symm.trans hc.1, hs2.symm.trans hc.2⟩
      · intro _
        exact ⟨"gecersiz SDK XML yaniti: GUID veya method bulunamadi",
          by simp [parseSdkResponseToks, hc]⟩
    · constructor
      · rintro ⟨e, he⟩
        simp [parseSdkResponseToks, hc] at he
      · rintro ⟨h1, h2⟩
        exact absurd ⟨hs1.trans h1, hs2.trans h2⟩ hc
  · simp [parseSdkResponseToks, parseSdkLoop, lastAttrUpd]
  · simp [parseSdkResponseToks, parseSdkLoop, lastAttrUpd, innerLoop, trimAscii]

/-- Translated from extractGUID's helper searches: Go strings.Index returns
the first index at which the pattern occurs (character positions coincide
with byte positions for the ASCII patterns involved). -/
def strHasPre : List Char → List Char → Bool
  | _, [] => true
  | [], _ :: _ => false
  | c :: cs, p :: ps => c = p && strHasPre cs ps

/-- Translated from strings.Index restricted to list-of-character form. -/
def idxOfSub : List Char → List Char → Nat → Option Nat
  | [], pat, i => if pat = [] then some i else none
  | c :: cs, pat, i =>
    if strHasPre (c :: cs) pat then some i else idxOfSub cs pat (i + 1)

/-- Translated from extractGUID: find the first occurrence of the literal
pattern before a guid value, then cut the value at the closing quote. -/
def extractGUID (xmlData : String) : String :=
  match idxOfSub xmlData.toList ("guid=\"".toList) 0 with
  | none => ""
  | some idx =>
    match idxOfSub (xmlData.toList.drop (idx + 6)) [Char.ofNat 34] 0 with
    | none => ""
    | some e => String.mk ((xmlData.toList.drop (idx + 6)).take e)

/-- Translated from handshakeSdkVersion's GUID recording: the session GUID
becomes the reply's GUID, unless that is empty or still the placeholder, in
which case a freshly generated identifier (the argument `fresh`, standing
for uuid.New().String()) is used. -/
def sessionGuidFrom (respGuid fresh : String) : String :=
  if respGuid = "" || respGuid = "##GUID" then fresh else respGuid

/-- SDK method name constant from the source. -/
def MethodGetDeviceInfo : String := "GetDeviceInfo"

/-- SDK method name constant from the source. -/
def MethodGetIFVersion : String := "GetIFVersion"

/-- Translated from buildSdkXML: the request XML envelope carrying the
session GUID (escaped), the method name and the optional inner body. -/
def buildSdkXML (guid method innerXML : String) : String :=
  "<?xml version=\"1.0\" encoding=\"utf-8\"?>" ++ "\r\n" ++
    "<sdk guid=\"" ++ xmlEscape guid ++ "\">" ++ "\r\n  " ++
    "<in method=\"" ++ method ++ "\">" ++
    (if innerXML ≠ "" then "\r\n    " ++ innerXML ++ "\r\n  " else "") ++
    "</in>" ++ "\r\n" ++ "</sdk>"

/-- Claim C7: parsing the phase-2 SDK-version reply whose sdk element
carries guid "abc-123" succeeds, and recording its GUID makes the session
identifier "abc-123" whatever fresh identifier was available; an absent or
placeholder reply GUID makes the locally generated identifier the session
identifier; and the GetDeviceInfo request XML subsequently built with the
session identifier carries guid="abc-123" in its guid attribute (read back
with the source's own extractGUID). -/
theorem session_guid_flow :
    ∀ fresh : String,
      (∃ r, parseSdkResponseToks
          [XmlTok.startEl "sdk" [("guid", "abc-123")],
           XmlTok.startEl "out" [("method", MethodGetIFVersion),
             ("result", "kSuccess")],
           XmlTok.endEl "out", XmlTok.endEl "sdk"] = Except.ok r ∧
        sessionGuidFrom r.GUID fresh = "abc-123") ∧
      sessionGuidFrom "" fresh = fresh ∧
      sessionGuidFrom "##GUID" fresh = fresh ∧
      extractGUID (buildSdkXML "abc-123" MethodGetDeviceInfo "") =
        "abc-123" := by
  intro fresh
  refine ⟨⟨⟨"abc-123", MethodGetIFVersion, "kSuccess", ""⟩, ?_, ?_⟩,
    ?_, ?_, ?_⟩
  · simp [parseSdkResponseToks, parseSdkLoop, lastAttrUpd, innerLoop,
      trimAscii, MethodGetIFVersion]
  · simp [sessionGuidFrom]
  · rfl
  · rfl
  · decide

/-- Translated from the DeviceInfo struct (the descriptor fields recorded by
the handshake; version and screen fields are elided as the claims only test
presence). -/
structure DeviceInfo where
  CPU : String := ""
  Model : String := ""
  DeviceID : String := ""
  DeviceName : String := ""
deriving Repr, DecidableEq, Inhabited

/-- Observable outcome of a successful Connect call. -/
structure ConnectOutcome where
  connected : Bool
  heartbeatStarted : Bool
  info : Option DeviceInfo
  guid : String
deriving Repr, DecidableEq

/-- Translated from Connect (device.go): dial, then the three handshake
phases in order.  A dial, phase-1 or phase-2 failure closes the connection
and fails the call.  A phase-3 (device-info) failure is only logged: the
cached descriptor keeps its previous value (absent on a fresh Device), the
heartbeat goroutine is started and the call returns success.  The phase
outcomes are parameters because they depend on the peer's answers. -/
def connectModel (initInfo : Option DeviceInfo)
    (dial : Except String Unit)
    (phase1 : Except String Unit)
    (phase2 : Except String String)
    (phase3 : Except String DeviceInfo) : Except String ConnectOutcome :=
  match dial with
  | Except.error e => Except.error e
  | Except.ok _ =>
    match phase1 with
    | Except.error e => Except.error e
    | Except.ok _ =>
      match phase2 with
      | Except.error e => Except.error e
      | Except.ok sid =>
        match phase3 with
        | Except.error _ => Except.ok ⟨true, true, initInfo, sid⟩
        | Except.ok i => Except.ok ⟨true, true, some i, sid⟩

/-- Claim C8: on a fresh Device (no cached descriptor), when dialing and
phases 1 and 2 succeed but phase 3 fails with any error, Connect returns
success, the connection is live with the heartbeat started, and the cached
device descriptor is absent. -/
theorem connect_phase3_nonfatal :
    ∀ (e sid : String),
      connectModel none (Except.ok ()) (Except.ok ()) (Except.ok sid)
          (Except.error e) =
        Except.ok ⟨true, true, none, sid⟩ := by
  intro e sid
  rfl

/-- State visible to the heartbeat loop: whether the stop channel has been
closed, whether the connection is still marked live, how many heartbeat
frames have been written, and whether the loop has returned. -/
structure HbState where
  stopClosed : Bool
  connected : Bool
  writes : Nat
  done : Bool
deriving Repr, DecidableEq

/-- Translated from heartbeatLoop (device.go): each select round either
observes the closed stop channel and returns, or the ticker fires — then a
connection no longer marked live ends the loop without writing, and a live
one attempts the heartbeat write, which either succeeds (one more frame on
the wire, loop continues) or fails (loop returns, no frame written).  The
stop branch is enabled only once the stop channel is closed; the tick
branches model Go's select picking the ticker even when both are ready. -/
inductive HbStep : HbState → HbState → Prop
  | stop (s : HbState) : s.done = false → s.stopClosed = true →
      HbStep s { s with done := true }
  | tickDead (s : HbState) : s.done = false → s.connected = false →
      HbStep s { s with done := true }
  | tickWrite (s : HbState) : s.done = false → s.connected = true →
      HbStep s { s with writes := s.writes + 1 }
  | tickWriteFail (s : HbState) : s.done = false → s.connected = true →
      HbStep s { s with done := true }

/-- Translated from closeInternal (device.go): Close closes the stop
channel and clears the liveness flag, both under the connection mutex and
therefore before the heartbeat loop can observe either. -/
def closeInternal (s : HbState) : HbState :=
  { s with stopClosed := true, connected := false }

theorem hb_no_writes_aux (s s' : HbState)
    (h : Relation.ReflTransGen HbStep s s')
    (hstop : s.stopClosed = true) (hconn : s.connected = false) :
    s'.writes = s.writes ∧ s'.stopClosed = true ∧ s'.connected = false := by
  induction h with
  | refl => exact ⟨rfl, hstop, hconn⟩
  | tail hab hbc ih =>
    rcases ih with ⟨hw, hs, hc⟩
    cases hbc with
    | stop h1 h2 => exact ⟨hw, hs, hc⟩
    | tickDead h1 h2 => exact ⟨hw, hs, hc⟩
    | tickWrite h1 h2 => simp [hc] at h2
    | tickWriteFail h1 h2 => simp [hc] at h2

/-- Claim C9: from the instant closeInternal has run (stop channel closed,
liveness cleared), every state the heartbeat loop's step relation can reach
has written no further heartbeat frame, and every single step available
from the closed state ends the loop. -/
theorem heartbeat_silent_after_close (s₀ s' : HbState) :
    (Relation.ReflTransGen HbStep (closeInternal s₀) s' →
      s'.writes = s₀.writes) ∧
    (HbStep (closeInternal s₀) s' → s'.done = true) := by
  constructor
  · intro h
    exact (hb_no_writes_aux (closeInternal s₀) s' h rfl rfl).1
  · intro h
    cases h with
    | stop h1 h2 => rfl
    | tickDead h1 h2 => rfl
    | tickWrite h1 h2 => simp [closeInternal] at h2
    | tickWriteFail h1 h2 => simp [closeInternal] at h2

/-- Witness for C9 at a concrete connection state with 3 written frames,
using the reflexive reachability of the just-closed state. -/
theorem heartbeat_silent_after_close_witness :
    (⟨true, false, 3, false⟩ : HbState).writes =
      (⟨false, true, 3, false⟩ : HbState).writes :=
  (heartbeat_silent_after_close ⟨false, true, 3, false⟩
    ⟨true, false, 3, false⟩).1 Relation.ReflTransGen.refl

/-- Witness for C2 at the one-byte input [65]. -/
theorem buildSdkCmdPackets_fragmentation_witness :
    ∃ chunks : List (List Nat),
      chunks.flatten = [65] ∧
      (∀ c ∈ chunks, 0 < c.length ∧ c.length ≤ MaxContentLength) ∧
      (([65] : List Nat) ≠ [] → chunks ≠ []) ∧
      buildSdkCmdPackets [65] = framesOf CmdSdkCmdAsk (1 : Nat) 0 chunks :=
  buildSdkCmdPackets_fragmentation.2 [65]
